import Mathlib

/-!
Verification of the range-aware download subsystem of the wings daemon
(`router/router_download.go`).

Go strings are modelled as `List Char`; Go `int64` values as `Int` (the
only places 64-bit overflow could be observed are `strconv.ParseInt`,
which reports an explicit range error that we model, and the subtraction
`fileSize - suffixLength`, whose wrapped and unwrapped values are shown
to lie on the same side of every bounds check).  Fallible Go calls return
`Option`/`Except`.  The external collaborators (token service, server
registry, backup locator, filesystem) are modelled as per-request
environments, and the single-use token ledger as an explicit list of
consumed token identifiers threaded through the handlers.
-/

namespace Wings

/-! ## Go string primitives -/

/-- Go `unicode.IsSpace` restricted to Latin-1, which is what the header
values at issue can contain: space, tab, newline, vertical tab, form
feed, carriage return, NEL and NBSP. -/
def goIsSpace (c : Char) : Bool :=
  c = ' ' || c = '\t' || c = '\n' || c = (Char.ofNat 11) || c = (Char.ofNat 12) ||
  c = '\r' || c = (Char.ofNat 133) || c = (Char.ofNat 160)

/-- Go `strings.TrimSpace`: drop leading and trailing white space. -/
def trimSpace (cs : List Char) : List Char :=
  ((cs.dropWhile goIsSpace).reverse.dropWhile goIsSpace).reverse

/-- Go `strings.TrimPrefix p s`: remove `p` from the front of `s` when it
is there, otherwise return `s` unchanged. -/
def trimPfx (p cs : List Char) : List Char :=
  if p.isPrefixOf cs then cs.drop p.length else cs

/-- Go `strings.Split s sep` for a one-character separator. -/
def splitChar (sep : Char) : List Char → List (List Char)
  | [] => [[]]
  | c :: cs =>
      if c = sep then [] :: splitChar sep cs
      else
        match splitChar sep cs with
        | [] => [[c]]
        | p :: ps => (c :: p) :: ps

/-! ## `strconv.ParseInt(s, 10, 64)` -/

/-- Is `c` a decimal digit? -/
def isDig (c : Char) : Bool := '0' ≤ c && c ≤ '9'

/-- Accumulate a decimal numeral; fails on the first non-digit. -/
def parseDigitsAux : List Char → Nat → Option Nat
  | [], acc => some acc
  | c :: cs, acc =>
      if isDig c then parseDigitsAux cs (acc * 10 + (c.toNat - 48)) else none

/-- A non-empty all-digit numeral, as a `Nat`. -/
def parseDigits (cs : List Char) : Option Nat :=
  if cs = [] then none else parseDigitsAux cs 0

/-- Go `strconv.ParseInt(s, 10, 64)`: optional sign, then a non-empty run
of decimal digits; values outside `int64` report a range error, which the
caller treats like any other failure, so we return `none` for them. -/
def parseGoInt (cs : List Char) : Option Int :=
  match cs with
  | [] => none
  | c :: rest =>
      if c = '+' then
        (parseDigits rest).bind fun n =>
          if n ≤ 2 ^ 63 - 1 then some (n : Int) else none
      else if c = '-' then
        (parseDigits rest).bind fun n =>
          if n ≤ 2 ^ 63 then some (-(n : Int)) else none
      else
        (parseDigits cs).bind fun n =>
          if n ≤ 2 ^ 63 - 1 then some (n : Int) else none

/-! ## `parseRangeHeader` (router_download.go lines 29-97) -/

/-- The `rangeSpec` struct; Go field `end` is a Lean keyword, written
`stop` here. -/
structure rangeSpec where
  start : Int
  stop : Int
  size : Int
deriving DecidableEq

/-- The distinct error returns of `parseRangeHeader`, one constructor per
`errors.New` site. -/
inductive RangeErr where
  | invalidFormat    -- "format range invalide"
  | invalidSuffix    -- "suffix range invalide"
  | invalidStart     -- "start range invalide"
  | invalidEnd       -- "end range invalide"
  | outOfBounds      -- "range hors limites"
deriving DecidableEq

deriving instance DecidableEq for Except

/-- The literal header prefix `bytes=`. -/
def bytesPfx : List Char := "bytes=".toList

/-- The final bounds check and struct construction (lines 87-96). -/
def mkRange (start stop fileSize : Int) : Except RangeErr (Option rangeSpec) :=
  if start < 0 ∨ start ≥ fileSize ∨ stop < start ∨ stop ≥ fileSize then
    .error .outOfBounds
  else
    .ok (some ⟨start, stop, stop - start + 1⟩)

/-- Dispatch on the three range forms once the `bytes=` prefix and the
comma handling are done (lines 47-96). -/
def parseRanges (ranges : List Char) (fileSize : Int) : Except RangeErr (Option rangeSpec) :=
  if ['-'].isPrefixOf ranges then
    match parseGoInt (ranges.drop 1) with
    | none => .error .invalidSuffix
    | some suffixLength =>
        let start := if suffixLength ≥ fileSize then 0 else fileSize - suffixLength
        mkRange start (fileSize - 1) fileSize
  else if ['-'].isSuffixOf ranges then
    match parseGoInt ranges.dropLast with
    | none => .error .invalidStart
    | some start => mkRange start (fileSize - 1) fileSize
  else
    let parts := splitChar '-' ranges
    if parts.length ≠ 2 then .error .invalidFormat
    else
      match parseGoInt (parts.headD []) with
      | none => .error .invalidStart
      | some start =>
          match parseGoInt (parts.getD 1 []) with
          | none => .error .invalidEnd
          | some stop => mkRange start stop fileSize

/-- `parseRangeHeader` (lines 29-97): empty header means "no range";
the header must start with `bytes=`; when several comma-separated ranges
are given only the first, trimmed, is kept. -/
def parseRangeHeader (rangeHeader : List Char) (fileSize : Int) :
    Except RangeErr (Option rangeSpec) :=
  if rangeHeader = [] then .ok none
  else if ¬ (bytesPfx.isPrefixOf rangeHeader) then .error .invalidFormat
  else
    let ranges0 := trimPfx bytesPfx rangeHeader
    let ranges :=
      if ranges0.contains ',' then trimSpace ((splitChar ',' ranges0).headD [])
      else ranges0
    parseRanges ranges fileSize

/-! ## Decimal numerals

`natToChars` renders a natural number the way Go's `%d` and
`strconv.FormatInt` do for non-negative values; `intToChars` adds the
sign for negative ones. -/

/-- The character for one decimal digit. -/
def digitCh : Nat → Char
  | 0 => '0' | 1 => '1' | 2 => '2' | 3 => '3' | 4 => '4'
  | 5 => '5' | 6 => '6' | 7 => '7' | 8 => '8' | _ => '9'

/-- Digits of `n`, most significant first, with explicit fuel so that it
evaluates by structural recursion. -/
def natToCharsAux : Nat → Nat → List Char
  | 0, _ => []
  | fuel + 1, n =>
      if n = 0 then [] else natToCharsAux fuel (n / 10) ++ [digitCh (n % 10)]

/-- Decimal numeral of a natural number, most significant digit first. -/
def natToChars (n : Nat) : List Char :=
  if n = 0 then ['0'] else natToCharsAux n n

/-- Go `strconv.FormatInt(i, 10)` / `fmt.Sprintf("%d", i)`. -/
def intToChars (i : Int) : List Char :=
  if i < 0 then '-' :: natToChars i.natAbs else natToChars i.toNat

/-! ## The HTTP surface of the handlers -/

/-- The response statuses the handlers emit.  `appError` stands for
`middleware.CaptureAndAbort`, the generic error response of the
middleware layer (outside these sources). -/
inductive Status where
  | ok                   -- http.StatusOK
  | partialContent       -- http.StatusPartialContent
  | notFound             -- http.StatusNotFound
  | rangeNotSatisfiable  -- http.StatusRequestedRangeNotSatisfiable
  | appError             -- middleware.CaptureAndAbort
deriving DecidableEq

/-- A response body: none, a JSON error message, or streamed bytes. -/
inductive Body where
  | empty
  | jsonError (msg : List Char)
  | bytes (bs : List Nat)
deriving DecidableEq

/-- An HTTP response: status, headers in emission order, body. -/
structure Response where
  status : Status
  headers : List (List Char × List Char)
  body : Body
deriving DecidableEq

/-- Metadata of a located resource (`os.FileInfo`): name, size, the
already-formatted `Last-Modified` value, and the directory flag. -/
structure FileStat where
  name : List Char
  size : Int
  modTimeHttp : List Char
  isDir : Bool
deriving DecidableEq

def hContentLength : List Char := "Content-Length".toList
def hContentDisposition : List Char := "Content-Disposition".toList
def hContentType : List Char := "Content-Type".toList
def hAcceptRanges : List Char := "Accept-Ranges".toList
def hContentRange : List Char := "Content-Range".toList
def hLastModified : List Char := "Last-Modified".toList
def octetStream : List Char := "application/octet-stream".toList

/-- One escaped character of `strconv.Quote`, for the printable ASCII
subset that resource names use. -/
def goQuoteEsc (c : Char) : List Char :=
  if c = '"' then ['\\', '"']
  else if c = '\\' then ['\\', '\\']
  else [c]

/-- Go `strconv.Quote` on printable ASCII names. -/
def goQuote (name : List Char) : List Char :=
  '"' :: (name.map goQuoteEsc).flatten ++ ['"']

/-- The `Content-Disposition` value `attachment; filename=<quoted>`. -/
def attachmentVal (name : List Char) : List Char :=
  "attachment; filename=".toList ++ goQuote name

/-- `fmt.Sprintf("bytes %d-%d/%d", start, end, fileSize)`. -/
def contentRangeVal (start stop total : Int) : List Char :=
  "bytes ".toList ++ intToChars start ++ '-' :: (intToChars stop ++ '/' :: intToChars total)

/-- `fmt.Sprintf("bytes */%d", fileSize)`. -/
def bytesStarVal (total : Int) : List Char :=
  "bytes */".toList ++ intToChars total

/-- The JSON error body used by every not-found abort except the
missing-backup one. -/
def resourceNotFoundMsg : List Char :=
  "The requested resource was not found on this server.".toList

/-- The JSON error body of the missing-backup abort (lines 129-131 and
186-188). -/
def backupNotFoundMsg : List Char :=
  "The requested backup was not found on this server.".toList

/-- The uniform 404 response (unknown server, replayed token, directory
target). -/
def notFoundResp : Response := ⟨.notFound, [], .jsonError resourceNotFoundMsg⟩

/-- The 404 response for a backup missing on disk. -/
def backupNotFoundResp : Response := ⟨.notFound, [], .jsonError backupNotFoundMsg⟩

/-- `middleware.CaptureAndAbort`: generic error response, no resource
detail. -/
def appErrorResp : Response := ⟨.appError, [], .empty⟩

/-- Headers of a successful HEAD (lines 147-151 and 296-300). -/
def headHeaders (st : FileStat) : List (List Char × List Char) :=
  [(hContentLength, intToChars st.size),
   (hContentDisposition, attachmentVal st.name),
   (hContentType, octetStream),
   (hAcceptRanges, "bytes".toList),
   (hLastModified, st.modTimeHttp)]

/-- The base headers every successful GET emits first (lines 217-219 and
355-357). -/
def baseHeaders (st : FileStat) : List (List Char × List Char) :=
  [(hContentDisposition, attachmentVal st.name),
   (hContentType, octetStream),
   (hAcceptRanges, "bytes".toList)]

/-! ## Token payloads and the consumption ledger -/

/-- `tokens.BackupPayload` as the handlers read it; `uniqueId` is the
identity under which the token service tracks single use. -/
structure BackupPayload where
  serverUuid : List Char
  backupUuid : List Char
  uniqueId : Nat
deriving DecidableEq

/-- `tokens.FilePayload` as the handlers read it. -/
structure FilePayload where
  serverUuid : List Char
  filePath : List Char
  uniqueId : Nat
deriving DecidableEq

/-- Modelled from the spec: `token.IsUniqueRequest` lives in the tokens
package, outside these sources.  Per spec section 4.3
(`isUnconsumedThenMark`) it returns true and atomically marks the token
consumed on the first call for a given token, and false on every
subsequent call.  The ledger of consumed token identities is threaded
explicitly. -/
def isUniqueRequest (ledger : List Nat) (id : Nat) : Bool × List Nat :=
  if ledger.contains id then (false, ledger) else (true, id :: ledger)

/-! ## Per-request environments for the external collaborators -/

/-- Outcome of `backup.LocateLocal`. -/
inductive LocateResult where
  | found (st : FileStat)
  | notExist   -- errors.Is(err, os.ErrNotExist)
  | otherErr
deriving DecidableEq

/-- The externally determined facts a backup request runs against:
`tokens.ParseToken`, `manager.Get`, `uuid.Parse`, `backup.LocateLocal`,
`os.Open`, `f.Seek`, and the bytes the opened handle yields. -/
structure BackupEnv where
  tokenParse : Option BackupPayload
  managerHas : Bool
  uuidOk : Bool
  locate : LocateResult
  openOk : Bool
  seekOk : Bool
  content : List Nat
deriving DecidableEq

/-- The externally determined facts a file request runs against:
`tokens.ParseToken`, `manager.Get`, `s.Filesystem().File` (handle and
stat together, `none` on any error), `f.Seek`, and the file's bytes. -/
structure FileEnv where
  tokenParse : Option FilePayload
  managerHas : Bool
  fileResult : Option FileStat
  seekOk : Bool
  content : List Nat
deriving DecidableEq

/-! ## The handlers -/

/-- The shared GET tail of both handlers (lines 203-256 and 341-395,
textually identical apart from the buffer-size thresholds and log
strings, neither of which is observable in the response): parse the
Range header against the stat size, answer 416 with only the advisory
`Content-Range` on a parse error, stream the seeked slice with 206 on a
range, or the whole content with 200 otherwise.  A seek failure falls to
`middleware.CaptureAndAbort`. -/
def streamResponse (st : FileStat) (content : List Nat) (seekOk : Bool)
    (rangeHeader : List Char) : Response :=
  let fileSize := st.size
  match parseRangeHeader rangeHeader fileSize with
  | .error _ =>
      ⟨.rangeNotSatisfiable, [(hContentRange, bytesStarVal fileSize)], .empty⟩
  | .ok (some rs) =>
      if seekOk then
        ⟨.partialContent,
         baseHeaders st ++
           [(hContentRange, contentRangeVal rs.start rs.stop fileSize),
            (hContentLength, intToChars rs.size)],
         .bytes ((content.drop rs.start.toNat).take rs.size.toNat)⟩
      else appErrorResp
  | .ok none =>
      ⟨.ok, baseHeaders st ++ [(hContentLength, intToChars fileSize)], .bytes content⟩

/-- `getDownloadBackupHead` (lines 100-154).  The ledger is returned
untouched: the HEAD path never calls `IsUniqueRequest`. -/
def getDownloadBackupHead (env : BackupEnv) (ledger : List Nat) :
    Response × List Nat :=
  match env.tokenParse with
  | none => (appErrorResp, ledger)
  | some _tok =>
      if !env.managerHas then (notFoundResp, ledger)
      else if !env.uuidOk then (appErrorResp, ledger)
      else
        match env.locate with
        | .notExist => (backupNotFoundResp, ledger)
        | .otherErr => (appErrorResp, ledger)
        | .found st =>
            if !env.openOk then (appErrorResp, ledger)
            else (⟨.ok, headHeaders st, .empty⟩, ledger)

/-- `getDownloadBackup` (lines 157-257).  The guard
`!ok || !token.IsUniqueRequest()` short-circuits: the token is consumed
exactly when the server lookup succeeds. -/
def getDownloadBackup (env : BackupEnv) (rangeHeader : List Char)
    (ledger : List Nat) : Response × List Nat :=
  match env.tokenParse with
  | none => (appErrorResp, ledger)
  | some tok =>
      if !env.managerHas then (notFoundResp, ledger)
      else
        match isUniqueRequest ledger tok.uniqueId with
        | (fresh, ledger') =>
          if !fresh then (notFoundResp, ledger')
          else if !env.uuidOk then (appErrorResp, ledger')
          else
            match env.locate with
            | .notExist => (backupNotFoundResp, ledger')
            | .otherErr => (appErrorResp, ledger')
            | .found st =>
                if !env.openOk then (appErrorResp, ledger')
                else (streamResponse st env.content env.seekOk rangeHeader, ledger')

/-- `getDownloadFileHead` (lines 260-303).  No ledger access, and unlike
the backup HEAD a directory stat is rejected with the uniform 404. -/
def getDownloadFileHead (env : FileEnv) (ledger : List Nat) :
    Response × List Nat :=
  match env.tokenParse with
  | none => (appErrorResp, ledger)
  | some _tok =>
      if !env.managerHas then (notFoundResp, ledger)
      else
        match env.fileResult with
        | none => (appErrorResp, ledger)
        | some st =>
            if st.isDir then (notFoundResp, ledger)
            else (⟨.ok, headHeaders st, .empty⟩, ledger)

/-- `getDownloadFile` (lines 306-395): like the backup GET but resolving
through the server filesystem, with a directory check and no separate
uuid validation or open step. -/
def getDownloadFile (env : FileEnv) (rangeHeader : List Char)
    (ledger : List Nat) : Response × List Nat :=
  match env.tokenParse with
  | none => (appErrorResp, ledger)
  | some tok =>
      if !env.managerHas then (notFoundResp, ledger)
      else
        match isUniqueRequest ledger tok.uniqueId with
        | (fresh, ledger') =>
          if !fresh then (notFoundResp, ledger')
          else
            match env.fileResult with
            | none => (appErrorResp, ledger')
            | some st =>
                if st.isDir then (notFoundResp, ledger')
                else (streamResponse st env.content env.seekOk rangeHeader, ledger')

/-! ## Concrete fixtures for witnesses and counterexamples -/

/-- A regular 4-byte resource. -/
def sampleStat : FileStat :=
  ⟨"save.tar.gz".toList, 4, "Mon, 01 Jan 2024 00:00:00 GMT".toList, false⟩

/-- A backup request where every external step succeeds. -/
def sampleBackupEnv : BackupEnv :=
  ⟨some ⟨"s1".toList, "b1".toList, 7⟩, true, true, .found sampleStat, true, true,
   [10, 20, 30, 40]⟩

/-- A file request where every external step succeeds. -/
def sampleFileEnv : FileEnv :=
  ⟨some ⟨"s1".toList, "f.txt".toList, 9⟩, true, some sampleStat, true,
   [10, 20, 30, 40]⟩

/-- A directory stat, as the external locators may report one. -/
def dirStat : FileStat :=
  ⟨"d".toList, 4, "Mon, 01 Jan 2024 00:00:00 GMT".toList, true⟩

/-- A backup request whose locate step resolves to a directory. -/
def dirBackupEnv : BackupEnv :=
  ⟨some ⟨"s1".toList, "b1".toList, 3⟩, true, true, .found dirStat, true, true,
   [1, 2, 3, 4]⟩

/-- A file request whose filesystem lookup resolves to a directory. -/
def dirFileEnv : FileEnv :=
  ⟨some ⟨"s1".toList, "p".toList, 5⟩, true, some dirStat, true, [1, 2, 3, 4]⟩

/-! ## Sanity checks on concrete inputs -/

example : parseRangeHeader "bytes=0-99".toList 1000 = .ok (some ⟨0, 99, 100⟩) := by decide
example : parseRangeHeader [] 1000 = .ok none := by decide
example : parseRangeHeader "bytes=-500".toList 1000 = .ok (some ⟨500, 999, 500⟩) := by decide
example : parseRangeHeader "bytes=-500".toList 300 = .ok (some ⟨0, 299, 300⟩) := by decide
example : parseRangeHeader "bytes=500-".toList 1000 = .ok (some ⟨500, 999, 500⟩) := by decide
example : parseRangeHeader "bytes=0-5, 10-20".toList 1000 = .ok (some ⟨0, 5, 6⟩) := by decide
example : parseRangeHeader "bytes=".toList 1000 = .error .invalidFormat := by decide
example : parseRangeHeader "bytes=5-4".toList 1000 = .error .outOfBounds := by decide
example : parseRangeHeader "bytes=-0".toList 1000 = .error .outOfBounds := by decide
example : parseRangeHeader "bytes=abc-4".toList 1000 = .error .invalidStart := by decide

/-! ## Digit and numeral lemmas -/

theorem digitCh_isDig {d : Nat} (h : d < 10) : isDig (digitCh d) = true := by
  interval_cases d <;> decide

theorem digitCh_toNat {d : Nat} (h : d < 10) : (digitCh d).toNat - 48 = d := by
  interval_cases d <;> decide

theorem isDig_ne_plus {c : Char} (h : isDig c = true) : c ≠ '+' := by
  rintro rfl; exact absurd h (by decide)

theorem isDig_ne_dash {c : Char} (h : isDig c = true) : c ≠ '-' := by
  rintro rfl; exact absurd h (by decide)

theorem isDig_ne_comma {c : Char} (h : isDig c = true) : c ≠ ',' := by
  rintro rfl; exact absurd h (by decide)

theorem parseDigitsAux_map {ds : List Nat} (hds : ∀ d ∈ ds, d < 10) (acc : Nat) :
    parseDigitsAux (ds.map digitCh) acc =
      some (ds.foldl (fun a d => a * 10 + d) acc) := by
  induction ds generalizing acc with
  | nil => rfl
  | cons d ds ih =>
      have hd : d < 10 := hds d (by simp)
      simp only [List.map_cons, parseDigitsAux, digitCh_isDig hd, if_true,
        digitCh_toNat hd, List.foldl_cons]
      exact ih (fun x hx => hds x (by simp [hx])) _

theorem foldr_scale (L : List Nat) :
    L.foldr (fun d a => a * 10 + d) 0 = Nat.ofDigits 10 L := by
  induction L with
  | nil => simp [Nat.ofDigits]
  | cons d L ih =>
      simp only [List.foldr_cons, ih, Nat.ofDigits_cons]
      ring

theorem natToCharsAux_eq {fuel n : Nat} (h : n ≤ fuel) :
    natToCharsAux fuel n = ((Nat.digits 10 n).map digitCh).reverse := by
  induction fuel generalizing n with
  | zero =>
      have h0 : n = 0 := by omega
      subst h0
      simp [natToCharsAux]
  | succ fuel ih =>
      by_cases h0 : n = 0
      · subst h0; simp [natToCharsAux]
      · rw [natToCharsAux, if_neg h0]
        have hdiv : n / 10 ≤ fuel := by omega
        rw [ih hdiv, Nat.digits_def' (by norm_num : (1 : ℕ) < 10)
          (Nat.pos_of_ne_zero h0)]
        simp

theorem natToChars_eq (n : Nat) :
    natToChars n = if n = 0 then ['0'] else ((Nat.digits 10 n).map digitCh).reverse := by
  by_cases h : n = 0
  · simp [natToChars, h]
  · rw [natToChars, if_neg h, if_neg h, natToCharsAux_eq (le_refl n)]

theorem natToChars_parse (n : Nat) : parseDigits (natToChars n) = some n := by
  by_cases h : n = 0
  · subst h; decide
  · have hnil : Nat.digits 10 n ≠ [] := Nat.digits_ne_nil_iff_ne_zero.mpr h
    have hmap : natToChars n = (Nat.digits 10 n).reverse.map digitCh := by
      rw [natToChars_eq, if_neg h, List.map_reverse]
    have hne : natToChars n ≠ [] := by
      rw [hmap]; simp [hnil]
    rw [parseDigits, if_neg hne, hmap]
    rw [parseDigitsAux_map (fun d hd =>
      Nat.digits_lt_base (by norm_num) (List.mem_reverse.mp hd)) 0]
    rw [List.foldl_reverse, foldr_scale, Nat.ofDigits_digits]

theorem mem_natToChars_isDig {n : Nat} {c : Char} (hc : c ∈ natToChars n) :
    isDig c = true := by
  by_cases h : n = 0
  · rw [natToChars_eq, if_pos h] at hc
    simp at hc; subst hc; decide
  · rw [natToChars_eq, if_neg h] at hc
    rw [List.mem_reverse, List.mem_map] at hc
    obtain ⟨d, hd, rfl⟩ := hc
    exact digitCh_isDig (Nat.digits_lt_base (by norm_num) hd)

theorem natToChars_ne_nil (n : Nat) : natToChars n ≠ [] := by
  by_cases h : n = 0
  · rw [natToChars_eq, if_pos h]; simp
  · rw [natToChars_eq, if_neg h]
    simp [Nat.digits_ne_nil_iff_ne_zero.mpr h]

theorem parseGoInt_digits {cs : List Char} (hne : cs ≠ [])
    (hd : ∀ c ∈ cs, isDig c = true) {n : Nat} (hp : parseDigits cs = some n)
    (hb : n ≤ 2 ^ 63 - 1) : parseGoInt cs = some (n : Int) := by
  obtain ⟨c, cs', rfl⟩ := List.exists_cons_of_ne_nil hne
  have h1 : isDig c = true := hd c (by simp)
  simp only [parseGoInt]
  rw [if_neg (isDig_ne_plus h1), if_neg (isDig_ne_dash h1), hp]
  simp only [Option.some_bind]
  rw [if_pos hb]

theorem parseGoInt_natToChars {n : Nat} (hb : n ≤ 2 ^ 63 - 1) :
    parseGoInt (natToChars n) = some (n : Int) :=
  parseGoInt_digits (natToChars_ne_nil n) (fun _ hc => mem_natToChars_isDig hc)
    (natToChars_parse n) hb

/-! ## List and Go-string helper lemmas -/

theorem isPrefixOf_cons_single {a x : Char} {l : List Char} :
    ([a].isPrefixOf (x :: l)) = (a == x) := by
  simp [List.isPrefixOf]

theorem contains_eq_false {l : List Char} {c : Char} (h : c ∉ l) :
    l.contains c = false := by
  simpa using h

theorem mem_trimSpace {c : Char} {l : List Char} (h : c ∈ trimSpace l) : c ∈ l := by
  rw [trimSpace, List.mem_reverse] at h
  have h2 : c ∈ (l.dropWhile goIsSpace).reverse := (List.dropWhile_sublist _).subset h
  rw [List.mem_reverse] at h2
  exact (List.dropWhile_sublist _).subset h2

theorem trimPfx_append (p r : List Char) : trimPfx p (p ++ r) = r := by
  rw [trimPfx, if_pos (List.isPrefixOf_iff_prefix.mpr (List.prefix_append p r)),
    List.drop_left]

theorem isSuffixOf_single_append {a : Char} {l m : List Char} (hm : m ≠ []) :
    ([a].isSuffixOf (l ++ m)) = ([a].isSuffixOf m) := by
  unfold List.isSuffixOf
  obtain ⟨x, xs, hx⟩ :=
    List.exists_cons_of_ne_nil (show m.reverse ≠ [] by simpa using hm)
  rw [List.reverse_append, hx]
  simp [isPrefixOf_cons_single]

theorem dash_not_suffix {b : List Char} (hb : b ≠ [])
    (hbd : '-' ∉ b) : ['-'].isSuffixOf b = false := by
  unfold List.isSuffixOf
  obtain ⟨y, ys, hy⟩ :=
    List.exists_cons_of_ne_nil (show b.reverse ≠ [] by simpa using hb)
  rw [hy]
  have hmem : y ∈ b := by rw [← List.mem_reverse, hy]; simp
  have hne : y ≠ '-' := fun hEq => hbd (hEq ▸ hmem)
  simp [isPrefixOf_cons_single]
  exact fun hEq => hne hEq.symm

theorem splitChar_ne_nil (sep : Char) (l : List Char) : splitChar sep l ≠ [] := by
  cases l with
  | nil => simp [splitChar]
  | cons c cs =>
      rw [splitChar]
      by_cases hc : c = sep
      · simp [hc]
      · rw [if_neg hc]
        cases splitChar sep cs <;> simp

theorem splitChar_not_mem {sep : Char} {a : List Char} (h : sep ∉ a) :
    splitChar sep a = [a] := by
  induction a with
  | nil => rfl
  | cons c cs ih =>
      have hc : ¬ c = sep := fun hEq => h (by simp [hEq])
      have hcs : sep ∉ cs := fun hm => h (by simp [hm])
      simp [splitChar, hc, ih hcs]

theorem splitChar_append_sep {sep : Char} {a : List Char} (b : List Char)
    (h : sep ∉ a) : splitChar sep (a ++ sep :: b) = a :: splitChar sep b := by
  induction a with
  | nil => simp [splitChar]
  | cons c cs ih =>
      have hc : ¬ c = sep := fun hEq => h (by simp [hEq])
      have hcs : sep ∉ cs := fun hm => h (by simp [hm])
      show splitChar sep (c :: (cs ++ sep :: b)) = (c :: cs) :: splitChar sep b
      rw [splitChar, if_neg hc, ih hcs]

theorem splitChar_parts_not_mem {sep : Char} :
    ∀ (l : List Char), ∀ p ∈ splitChar sep l, sep ∉ p := by
  intro l
  induction l with
  | nil =>
      intro p hp
      simp [splitChar] at hp
      subst hp; simp
  | cons c cs ih =>
      intro p hp
      by_cases hc : c = sep
      · rw [splitChar, if_pos hc] at hp
        rcases List.mem_cons.mp hp with h1 | h1
        · subst h1; simp
        · exact ih p h1
      · rw [splitChar, if_neg hc] at hp
        obtain ⟨q, qs, hq⟩ := List.exists_cons_of_ne_nil (splitChar_ne_nil sep cs)
        rw [hq] at hp
        rcases List.mem_cons.mp hp with h1 | h1
        · subst h1
          intro hm
          rcases List.mem_cons.mp hm with h2 | h2
          · exact hc h2.symm
          · exact ih q (by rw [hq]; simp) h2
        · exact ih p (by rw [hq]; simp [h1])

/-! ## Evaluation lemmas for `parseRangeHeader` -/

theorem parseRangeHeader_bytes (r : List Char) (S : Int)
    (hnc : r.contains ',' = false) :
    parseRangeHeader (bytesPfx ++ r) S = parseRanges r S := by
  rw [parseRangeHeader]
  rw [if_neg (show ¬ (bytesPfx ++ r = []) by simp [bytesPfx])]
  rw [if_neg (show ¬ ¬ (bytesPfx.isPrefixOf (bytesPfx ++ r) = true) by
    simp [List.isPrefixOf_iff_prefix.mpr (List.prefix_append bytesPfx r)])]
  simp only [trimPfx_append, hnc]
  rfl

theorem parseRangeHeader_bytes_comma (r : List Char) (S : Int)
    (hc : r.contains ',' = true) :
    parseRangeHeader (bytesPfx ++ r) S =
      parseRanges (trimSpace ((splitChar ',' r).headD [])) S := by
  rw [parseRangeHeader]
  rw [if_neg (show ¬ (bytesPfx ++ r = []) by simp [bytesPfx])]
  rw [if_neg (show ¬ ¬ (bytesPfx.isPrefixOf (bytesPfx ++ r) = true) by
    simp [List.isPrefixOf_iff_prefix.mpr (List.prefix_append bytesPfx r)])]
  simp only [trimPfx_append, hc]
  rfl

theorem mkRange_ok {start stop S : Int} (h0 : 0 ≤ start) (h1 : start < S)
    (h2 : start ≤ stop) (h3 : stop < S) :
    mkRange start stop S = .ok (some ⟨start, stop, stop - start + 1⟩) := by
  rw [mkRange, if_neg (by omega)]

theorem mkRange_err {start stop S : Int}
    (h : start < 0 ∨ start ≥ S ∨ stop < start ∨ stop ≥ S) :
    mkRange start stop S = .error .outOfBounds := by
  rw [mkRange, if_pos h]

theorem mkRange_zero (start stop : Int) : mkRange start stop 0 = .error .outOfBounds :=
  mkRange_err (by omega)

theorem parseRanges_closed {a b : List Char} (ha : a ≠ []) (hb : b ≠ [])
    (had : '-' ∉ a) (hbd : '-' ∉ b) (S : Int) :
    parseRanges (a ++ '-' :: b) S =
      (match parseGoInt a with
       | none => .error .invalidStart
       | some start =>
           match parseGoInt b with
           | none => .error .invalidEnd
           | some stop => mkRange start stop S) := by
  obtain ⟨c, cs, rfl⟩ := List.exists_cons_of_ne_nil ha
  have hne : ¬ ('-' = c) := fun hEq => had (by simp [hEq.symm])
  have hnp : (['-'].isPrefixOf ((c :: cs) ++ '-' :: b)) = false := by
    rw [List.cons_append, isPrefixOf_cons_single]
    simp [hne]
  have hns : (['-'].isSuffixOf ((c :: cs) ++ '-' :: b)) = false := by
    rw [show (c :: cs) ++ '-' :: b = ((c :: cs) ++ ['-']) ++ b by simp,
      isSuffixOf_single_append hb]
    exact dash_not_suffix hb hbd
  have hsp : splitChar '-' ((c :: cs) ++ '-' :: b) = [c :: cs, b] := by
    rw [splitChar_append_sep b had, splitChar_not_mem hbd]
  rw [parseRanges, if_neg (by simp only [hnp]; simp), if_neg (by simp only [hns]; simp)]
  simp only [hsp]
  rfl

theorem parseRanges_suffix (b : List Char) (S : Int) :
    parseRanges ('-' :: b) S =
      (match parseGoInt b with
       | none => .error .invalidSuffix
       | some suffixLength =>
           mkRange (if suffixLength ≥ S then 0 else S - suffixLength) (S - 1) S) := by
  rw [parseRanges, if_pos (by rw [isPrefixOf_cons_single]; simp)]
  rfl

theorem parseRanges_zero (r : List Char) : ∃ e, parseRanges r 0 = Except.error e := by
  rw [parseRanges]
  by_cases h1 : (['-'].isPrefixOf r) = true
  · rw [if_pos (by simp [h1])]
    cases hp : parseGoInt (r.drop 1) with
    | none => exact ⟨_, rfl⟩
    | some n => exact ⟨_, mkRange_zero _ _⟩
  · rw [if_neg (by simp at h1 ⊢; exact h1)]
    by_cases h2 : (['-'].isSuffixOf r) = true
    · rw [if_pos (by simp [h2])]
      cases hp : parseGoInt r.dropLast with
      | none => exact ⟨_, rfl⟩
      | some n => exact ⟨_, mkRange_zero _ _⟩
    · rw [if_neg (by simp at h2 ⊢; exact h2)]
      by_cases h3 : (splitChar '-' r).length ≠ 2
      · rw [if_pos h3]; exact ⟨_, rfl⟩
      · rw [if_neg h3]
        cases hp : parseGoInt ((splitChar '-' r).headD []) with
        | none => exact ⟨_, rfl⟩
        | some s =>
            cases hq : parseGoInt ((splitChar '-' r).getD 1 []) with
            | none => exact ⟨_, rfl⟩
            | some e => exact ⟨_, mkRange_zero _ _⟩

theorem closed_no_comma {a b : List Char} (ha : ',' ∉ a) (hb : ',' ∉ b) :
    ((a ++ '-' :: b).contains ',') = false :=
  contains_eq_false (fun hm => by
    rcases List.mem_append.mp hm with h | h
    · exact ha h
    · rcases List.mem_cons.mp h with h | h
      · exact absurd h (by decide)
      · exact hb h)

theorem suffix_no_comma {b : List Char} (hb : ',' ∉ b) :
    (('-' :: b).contains ',') = false :=
  contains_eq_false (fun hm => by
    rcases List.mem_cons.mp hm with h | h
    · exact absurd h (by decide)
    · exact hb h)

theorem comma_not_mem_natToChars (n : Nat) : ',' ∉ natToChars n :=
  fun hm => isDig_ne_comma (mem_natToChars_isDig hm) rfl

theorem dash_not_mem_natToChars (n : Nat) : '-' ∉ natToChars n :=
  fun hm => isDig_ne_dash (mem_natToChars_isDig hm) rfl

/-! ## The range-parser claims -/

/-- Claim C4: for all `int64` sizes `S` and offsets with
`0 ≤ start ≤ end < S`, parsing the header `bytes=start-end` against total
size `S` succeeds and yields the range spec
`{start, end, size = end - start + 1}`. -/
theorem closed_range_parses (s e : Nat) (S : Int) (h1 : s ≤ e)
    (h2 : (e : Int) < S) (h3 : S ≤ 2 ^ 63) :
    parseRangeHeader (bytesPfx ++ (natToChars s ++ '-' :: natToChars e)) S =
      .ok (some ⟨(s : Int), (e : Int), (e : Int) - (s : Int) + 1⟩) := by
  have hs63 : s ≤ 2 ^ 63 - 1 := by omega
  have he63 : e ≤ 2 ^ 63 - 1 := by omega
  rw [parseRangeHeader_bytes _ _
    (closed_no_comma (comma_not_mem_natToChars s) (comma_not_mem_natToChars e))]
  rw [parseRanges_closed (natToChars_ne_nil s) (natToChars_ne_nil e)
    (dash_not_mem_natToChars s) (dash_not_mem_natToChars e)]
  rw [parseGoInt_natToChars hs63, parseGoInt_natToChars he63]
  exact mkRange_ok (by omega) (by omega) (by omega) (by omega)

/-- Witness for C4 at the spec's own example: `bytes=0-99` against a
1000-byte resource. -/
theorem closed_range_parses_witness :
    parseRangeHeader "bytes=0-99".toList 1000 = .ok (some ⟨0, 99, 100⟩) := by
  have h := closed_range_parses 0 99 1000 (by norm_num) (by norm_num) (by norm_num)
  have he : "bytes=0-99".toList = bytesPfx ++ (natToChars 0 ++ '-' :: natToChars 99) := by
    decide
  rw [he, h]
  decide

/-- Claim C5 counterexample: the suffix header `bytes=-0` against size 5
has `N = 0 < 5 = S`, so the claim demands the spec
`{start = S - N = 5, end = 4}`; the code instead rejects the range
(`start ≥ fileSize` in the bounds check). -/
theorem suffix_range_cex :
    parseRangeHeader "bytes=-0".toList 5 = .error .outOfBounds := by decide

/-- Claim C5 (amended): for a suffix header `bytes=-N` with `1 ≤ N` and
`1 ≤ S`, the parse clamps to `{0, S-1, S}` when `N ≥ S` and yields
`{S-N, S-1, N}` when `N < S`; when `N = 0` or `S = 0` the parse instead
fails the bounds check. -/
theorem suffix_range_parses (N : Nat) (S : Int) (hb : N ≤ 2 ^ 63 - 1) :
    (1 ≤ N → 1 ≤ S →
        parseRangeHeader (bytesPfx ++ '-' :: natToChars N) S =
          (if (N : Int) ≥ S then .ok (some ⟨0, S - 1, S⟩)
           else .ok (some ⟨S - (N : Int), S - 1, (N : Int)⟩))) ∧
    ((N = 0 ∨ S = 0) →
        parseRangeHeader (bytesPfx ++ '-' :: natToChars N) S =
          .error .outOfBounds) := by
  have hred : parseRangeHeader (bytesPfx ++ '-' :: natToChars N) S =
      mkRange (if (N : Int) ≥ S then 0 else S - (N : Int)) (S - 1) S := by
    rw [parseRangeHeader_bytes _ _ (suffix_no_comma (comma_not_mem_natToChars N)),
      parseRanges_suffix, parseGoInt_natToChars hb]
  constructor
  · intro hN hS
    rw [hred]
    by_cases hcase : (N : Int) ≥ S
    · rw [if_pos hcase, if_pos hcase,
        mkRange_ok (by omega) (by omega) (by omega) (by omega)]
      have hsz : S - 1 - 0 + 1 = S := by ring
      rw [hsz]
    · rw [if_neg hcase, if_neg hcase,
        mkRange_ok (by omega) (by omega) (by omega) (by omega)]
      have hsz : S - 1 - (S - (N : Int)) + 1 = (N : Int) := by ring
      rw [hsz]
  · intro hzero
    rw [hred]
    rcases hzero with h | h
    · subst h
      by_cases hcase : ((0 : Nat) : Int) ≥ S
      · rw [if_pos hcase]; exact mkRange_err (by omega)
      · rw [if_neg hcase]; exact mkRange_err (by omega)
    · subst h
      by_cases hcase : (N : Int) ≥ 0
      · rw [if_pos hcase]; exact mkRange_err (by omega)
      · rw [if_neg hcase]; exact mkRange_err (by omega)

/-- Witness for the amended C5: both the clamping case and the
bounds-failure case at concrete inputs. -/
theorem suffix_range_parses_witness :
    parseRangeHeader "bytes=-500".toList 300 = .ok (some ⟨0, 299, 300⟩) ∧
    parseRangeHeader "bytes=-0".toList 300 = .error .outOfBounds := by
  constructor
  · have h := (suffix_range_parses 500 300 (by norm_num)).1 (by norm_num) (by norm_num)
    have he : "bytes=-500".toList = bytesPfx ++ '-' :: natToChars 500 := by decide
    rw [he, h]
    decide
  · have h := (suffix_range_parses 0 300 (by norm_num)).2 (Or.inl rfl)
    have he : "bytes=-0".toList = bytesPfx ++ '-' :: natToChars 0 := by decide
    rw [he, h]

/-- Claim C6: every malformed or out-of-bounds input — missing `bytes=`
prefix, empty spec, non-numeric component (in suffix or closed form),
`start > end`, `end ≥ S`, `start ≥ S` — makes `parseRangeHeader` return
an explicit error, and for total size `S = 0` every spec after `bytes=`
is rejected. -/
theorem rangeParsing_rejects_malformed :
    (∀ (h : List Char) (S : Int), h ≠ [] → bytesPfx.isPrefixOf h = false →
        parseRangeHeader h S = .error .invalidFormat) ∧
    (∀ S : Int, parseRangeHeader bytesPfx S = .error .invalidFormat) ∧
    (∀ (b : List Char) (S : Int), ',' ∉ b → parseGoInt b = none →
        parseRangeHeader (bytesPfx ++ '-' :: b) S = .error .invalidSuffix) ∧
    (∀ (a b : List Char) (S : Int), a ≠ [] → b ≠ [] → '-' ∉ a → '-' ∉ b →
        ',' ∉ a → ',' ∉ b → parseGoInt a = none →
        parseRangeHeader (bytesPfx ++ (a ++ '-' :: b)) S = .error .invalidStart) ∧
    (∀ (a b : List Char) (S : Int) (n : Int), a ≠ [] → b ≠ [] → '-' ∉ a →
        '-' ∉ b → ',' ∉ a → ',' ∉ b → parseGoInt a = some n →
        parseGoInt b = none →
        parseRangeHeader (bytesPfx ++ (a ++ '-' :: b)) S = .error .invalidEnd) ∧
    (∀ (s e : Nat) (S : Int), s ≤ 2 ^ 63 - 1 → e ≤ 2 ^ 63 - 1 →
        ((e : Int) < (s : Int) ∨ (s : Int) ≥ S ∨ (e : Int) ≥ S) →
        parseRangeHeader (bytesPfx ++ (natToChars s ++ '-' :: natToChars e)) S =
          .error .outOfBounds) ∧
    (∀ r : List Char, ¬ ∃ v, parseRangeHeader (bytesPfx ++ r) 0 = .ok v) := by
  refine ⟨?_, ?_, ?_, ?_, ?_, ?_, ?_⟩
  · intro h S hne hpre
    rw [parseRangeHeader, if_neg hne, if_pos (by simp [hpre])]
  · intro S
    have h0 : parseRangeHeader bytesPfx S = parseRanges [] S := by
      have he : bytesPfx = bytesPfx ++ [] := by simp
      rw [he, parseRangeHeader_bytes [] S rfl]
    rw [h0]
    rfl
  · intro b S hb hp
    rw [parseRangeHeader_bytes _ _ (suffix_no_comma hb), parseRanges_suffix, hp]
  · intro a b S ha hb hda hdb hca hcb hp
    rw [parseRangeHeader_bytes _ _ (closed_no_comma hca hcb),
      parseRanges_closed ha hb hda hdb, hp]
  · intro a b S n ha hb hda hdb hca hcb hp hq
    rw [parseRangeHeader_bytes _ _ (closed_no_comma hca hcb),
      parseRanges_closed ha hb hda hdb, hp, hq]
  · intro s e S hs63 he63 hdisj
    rw [parseRangeHeader_bytes _ _
      (closed_no_comma (comma_not_mem_natToChars s) (comma_not_mem_natToChars e))]
    rw [parseRanges_closed (natToChars_ne_nil s) (natToChars_ne_nil e)
      (dash_not_mem_natToChars s) (dash_not_mem_natToChars e)]
    rw [parseGoInt_natToChars hs63, parseGoInt_natToChars he63]
    exact mkRange_err (by omega)
  · rintro r ⟨v, hv⟩
    by_cases hc : r.contains ',' = true
    · rw [parseRangeHeader_bytes_comma r 0 hc] at hv
      obtain ⟨e, he⟩ := parseRanges_zero (trimSpace ((splitChar ',' r).headD []))
      rw [he] at hv
      cases hv
    · rw [parseRangeHeader_bytes r 0 (by simpa using hc)] at hv
      obtain ⟨e, he⟩ := parseRanges_zero r
      rw [he] at hv
      cases hv

/-- Witness for C6: one concrete input per malformed category. -/
theorem rangeParsing_rejects_malformed_witness :
    parseRangeHeader "octets=1-2".toList 10 = .error .invalidFormat ∧
    parseRangeHeader "bytes=".toList 10 = .error .invalidFormat ∧
    parseRangeHeader "bytes=-abc".toList 10 = .error .invalidSuffix ∧
    parseRangeHeader "bytes=x-2".toList 10 = .error .invalidStart ∧
    parseRangeHeader "bytes=1-y".toList 10 = .error .invalidEnd ∧
    parseRangeHeader "bytes=5-4".toList 10 = .error .outOfBounds ∧
    ¬ ∃ v, parseRangeHeader "bytes=0-0".toList 0 = .ok v := by
  obtain ⟨c1, c2, c3, c4, c5, c6, c7⟩ := rangeParsing_rejects_malformed
  refine ⟨?_, ?_, ?_, ?_, ?_, ?_, ?_⟩
  · exact c1 _ 10 (by decide) (by decide)
  · have he : "bytes=".toList = bytesPfx := by decide
    rw [he]
    exact c2 10
  · have he : "bytes=-abc".toList = bytesPfx ++ '-' :: "abc".toList := by decide
    rw [he]
    exact c3 _ 10 (by decide) (by decide)
  · have he : "bytes=x-2".toList = bytesPfx ++ ("x".toList ++ '-' :: "2".toList) := by
      decide
    rw [he]
    exact c4 _ _ 10 (by decide) (by decide) (by decide) (by decide) (by decide)
      (by decide) (by decide)
  · have he : "bytes=1-y".toList = bytesPfx ++ ("1".toList ++ '-' :: "y".toList) := by
      decide
    rw [he]
    exact c5 _ _ 10 1 (by decide) (by decide) (by decide) (by decide) (by decide)
      (by decide) (by decide) (by decide)
  · have he : "bytes=5-4".toList = bytesPfx ++ (natToChars 5 ++ '-' :: natToChars 4) := by
      decide
    rw [he]
    exact c6 5 4 10 (by norm_num) (by norm_num) (by norm_num)
  · have he : "bytes=0-0".toList = bytesPfx ++ "0-0".toList := by decide
    rw [he]
    exact c7 _

/-- Claim C7: a Range header with several comma-separated ranges parses
exactly as the first range alone (after trimming its surrounding white
space); the rest are discarded. -/
theorem first_range_only (r : List Char) (S : Int) (hc : r.contains ',' = true) :
    parseRangeHeader (bytesPfx ++ r) S =
      parseRangeHeader (bytesPfx ++ trimSpace ((splitChar ',' r).headD [])) S := by
  rw [parseRangeHeader_bytes_comma r S hc]
  have hmem : (splitChar ',' r).headD [] ∈ splitChar ',' r := by
    obtain ⟨q, qs, hq⟩ := List.exists_cons_of_ne_nil (splitChar_ne_nil ',' r)
    rw [hq]; simp
  have ht : (trimSpace ((splitChar ',' r).headD [])).contains ',' = false :=
    contains_eq_false (fun hm =>
      splitChar_parts_not_mem r _ hmem (mem_trimSpace hm))
  rw [parseRangeHeader_bytes _ S ht]

/-- Witness for C7: a two-range header equals its first range alone, and
evaluates to that range's spec. -/
theorem first_range_only_witness :
    parseRangeHeader "bytes=0-5, 10-20".toList 1000 =
      parseRangeHeader "bytes=0-5".toList 1000 ∧
    parseRangeHeader "bytes=0-5, 10-20".toList 1000 = .ok (some ⟨0, 5, 6⟩) := by
  have he : "bytes=0-5, 10-20".toList = bytesPfx ++ "0-5, 10-20".toList := by decide
  have h := first_range_only ("0-5, 10-20".toList) 1000 (by decide)
  constructor
  · rw [he, h]
    decide
  · rw [he, h]
    decide

/-! ## Handler helper lemmas -/

theorem backupGet_ledger {env : BackupEnv} {tok : BackupPayload}
    (h1 : env.tokenParse = some tok) (h2 : env.managerHas = true)
    (rng : List Char) (ledger : List Nat) :
    (getDownloadBackup env rng ledger).2 =
      if ledger.contains tok.uniqueId then ledger else tok.uniqueId :: ledger := by
  obtain ⟨tp, mh, uo, loc, oo, so, ct⟩ := env
  dsimp only at h1 h2
  subst h1 h2
  by_cases hm : tok.uniqueId ∈ ledger
  · have hc : ledger.contains tok.uniqueId = true := by simpa using hm
    simp [getDownloadBackup, isUniqueRequest, hm, hc]
  · have hc : ledger.contains tok.uniqueId = false := by simpa using hm
    cases uo <;> rcases loc with st | _ | _ <;> cases oo <;>
      simp [getDownloadBackup, isUniqueRequest, hm, hc]

theorem fileGet_ledger {env : FileEnv} {tok : FilePayload}
    (h1 : env.tokenParse = some tok) (h2 : env.managerHas = true)
    (rng : List Char) (ledger : List Nat) :
    (getDownloadFile env rng ledger).2 =
      if ledger.contains tok.uniqueId then ledger else tok.uniqueId :: ledger := by
  obtain ⟨tp, mh, fr, so, ct⟩ := env
  dsimp only at h1 h2
  subst h1 h2
  by_cases hm : tok.uniqueId ∈ ledger
  · have hc : ledger.contains tok.uniqueId = true := by simpa using hm
    simp [getDownloadFile, isUniqueRequest, hm, hc]
  · have hc : ledger.contains tok.uniqueId = false := by simpa using hm
    rcases fr with _ | st
    · simp [getDownloadFile, isUniqueRequest, hm, hc]
    · by_cases hdir : st.isDir = true <;>
        simp [getDownloadFile, isUniqueRequest, hm, hc, hdir]

theorem backupGet_untouched {env : BackupEnv} (rng : List Char) (ledger : List Nat)
    (h : env.managerHas = false ∨ env.tokenParse = none) :
    (getDownloadBackup env rng ledger).2 = ledger := by
  obtain ⟨tp, mh, uo, loc, oo, so, ct⟩ := env
  dsimp only at h
  rcases h with h | h
  · subst h
    cases tp <;> simp [getDownloadBackup]
  · subst h
    simp [getDownloadBackup]

theorem fileGet_untouched {env : FileEnv} (rng : List Char) (ledger : List Nat)
    (h : env.managerHas = false ∨ env.tokenParse = none) :
    (getDownloadFile env rng ledger).2 = ledger := by
  obtain ⟨tp, mh, fr, so, ct⟩ := env
  dsimp only at h
  rcases h with h | h
  · subst h
    cases tp <;> simp [getDownloadFile]
  · subst h
    simp [getDownloadFile]

theorem backupGet_replayed {env : BackupEnv} {tok : BackupPayload}
    (h1 : env.tokenParse = some tok) (h2 : env.managerHas = true)
    {ledger : List Nat} (hc : ledger.contains tok.uniqueId = true)
    (rng : List Char) :
    getDownloadBackup env rng ledger = (notFoundResp, ledger) := by
  obtain ⟨tp, mh, uo, loc, oo, so, ct⟩ := env
  dsimp only at h1 h2
  subst h1 h2
  have hm : tok.uniqueId ∈ ledger := by simpa using hc
  simp [getDownloadBackup, isUniqueRequest, hm, hc]

theorem fileGet_replayed {env : FileEnv} {tok : FilePayload}
    (h1 : env.tokenParse = some tok) (h2 : env.managerHas = true)
    {ledger : List Nat} (hc : ledger.contains tok.uniqueId = true)
    (rng : List Char) :
    getDownloadFile env rng ledger = (notFoundResp, ledger) := by
  obtain ⟨tp, mh, fr, so, ct⟩ := env
  dsimp only at h1 h2
  subst h1 h2
  have hm : tok.uniqueId ∈ ledger := by simpa using hc
  simp [getDownloadFile, isUniqueRequest, hm, hc]

theorem backupGet_no_server {env : BackupEnv} {tok : BackupPayload}
    (h1 : env.tokenParse = some tok) (h2 : env.managerHas = false)
    (rng : List Char) (ledger : List Nat) :
    getDownloadBackup env rng ledger = (notFoundResp, ledger) := by
  obtain ⟨tp, mh, uo, loc, oo, so, ct⟩ := env
  dsimp only at h1 h2
  subst h1 h2
  simp [getDownloadBackup]

theorem backupGet_stream {env : BackupEnv} {tok : BackupPayload} {st : FileStat}
    (h1 : env.tokenParse = some tok) (h2 : env.managerHas = true)
    {ledger : List Nat} (hc : ledger.contains tok.uniqueId = false)
    (h3 : env.uuidOk = true) (h4 : env.locate = .found st)
    (h5 : env.openOk = true) (rng : List Char) :
    getDownloadBackup env rng ledger =
      (streamResponse st env.content env.seekOk rng, tok.uniqueId :: ledger) := by
  obtain ⟨tp, mh, uo, loc, oo, so, ct⟩ := env
  dsimp only at h1 h2 h3 h4 h5 ⊢
  subst h1 h2 h3 h4 h5
  have hm : tok.uniqueId ∉ ledger := by simpa using hc
  simp [getDownloadBackup, isUniqueRequest, hm, hc]

theorem fileGet_stream {env : FileEnv} {tok : FilePayload} {st : FileStat}
    (h1 : env.tokenParse = some tok) (h2 : env.managerHas = true)
    {ledger : List Nat} (hc : ledger.contains tok.uniqueId = false)
    (h3 : env.fileResult = some st) (h4 : st.isDir = false) (rng : List Char) :
    getDownloadFile env rng ledger =
      (streamResponse st env.content env.seekOk rng, tok.uniqueId :: ledger) := by
  obtain ⟨tp, mh, fr, so, ct⟩ := env
  dsimp only at h1 h2 h3 ⊢
  subst h1 h2 h3
  have hm : tok.uniqueId ∉ ledger := by simpa using hc
  simp [getDownloadFile, isUniqueRequest, hm, hc, h4]

theorem backupHead_ledger (env : BackupEnv) (ledger : List Nat) :
    (getDownloadBackupHead env ledger).2 = ledger := by
  obtain ⟨tp, mh, uo, loc, oo, so, ct⟩ := env
  cases tp <;> cases mh <;> cases uo <;> rcases loc with st | _ | _ <;> cases oo <;>
    simp [getDownloadBackupHead]

theorem fileHead_ledger (env : FileEnv) (ledger : List Nat) :
    (getDownloadFileHead env ledger).2 = ledger := by
  obtain ⟨tp, mh, fr, so, ct⟩ := env
  rcases tp with _ | tok
  · simp [getDownloadFileHead]
  · cases mh
    · simp [getDownloadFileHead]
    · rcases fr with _ | st
      · simp [getDownloadFileHead]
      · by_cases hdir : st.isDir = true <;> simp [getDownloadFileHead, hdir]

theorem parseRangeHeader_nil (S : Int) : parseRangeHeader [] S = .ok none := by
  rw [parseRangeHeader, if_pos rfl]

theorem streamResponse_range {st : FileStat} {content : List Nat}
    {rng : List Char} {rs : rangeSpec}
    (hp : parseRangeHeader rng st.size = .ok (some rs)) :
    streamResponse st content true rng =
      ⟨.partialContent,
       baseHeaders st ++
         [(hContentRange, contentRangeVal rs.start rs.stop st.size),
          (hContentLength, intToChars rs.size)],
       .bytes ((content.drop rs.start.toNat).take rs.size.toNat)⟩ := by
  simp only [streamResponse]
  rw [hp]
  simp

theorem streamResponse_err {st : FileStat} {content : List Nat}
    {seekOk : Bool} {rng : List Char} {e : RangeErr}
    (hp : parseRangeHeader rng st.size = .error e) :
    streamResponse st content seekOk rng =
      ⟨.rangeNotSatisfiable, [(hContentRange, bytesStarVal st.size)], .empty⟩ := by
  simp only [streamResponse]
  rw [hp]

theorem streamResponse_full {st : FileStat} {content : List Nat}
    {seekOk : Bool} {rng : List Char}
    (hp : parseRangeHeader rng st.size = .ok none) :
    streamResponse st content seekOk rng =
      ⟨.ok, baseHeaders st ++ [(hContentLength, intToChars st.size)],
       .bytes content⟩ := by
  simp only [streamResponse]
  rw [hp]

/-! ## The handler claims -/

/-- Claim C3: in both GET handlers the single-use check-and-mark sits in
the initial guard, before resource resolution and range parsing: when
the server lookup succeeds the final ledger records the token as
consumed whatever the later locate, directory, storage or range outcome
is, and when the lookup fails (or the token does not parse) the
short-circuited guard leaves the ledger untouched. -/
theorem token_consumed_in_guard :
    (∀ (env : BackupEnv) (rng : List Char) (ledger : List Nat) (tok : BackupPayload),
        env.tokenParse = some tok → env.managerHas = true →
        (getDownloadBackup env rng ledger).2 =
          if ledger.contains tok.uniqueId then ledger else tok.uniqueId :: ledger) ∧
    (∀ (env : BackupEnv) (rng : List Char) (ledger : List Nat),
        env.managerHas = false ∨ env.tokenParse = none →
        (getDownloadBackup env rng ledger).2 = ledger) ∧
    (∀ (env : FileEnv) (rng : List Char) (ledger : List Nat) (tok : FilePayload),
        env.tokenParse = some tok → env.managerHas = true →
        (getDownloadFile env rng ledger).2 =
          if ledger.contains tok.uniqueId then ledger else tok.uniqueId :: ledger) ∧
    (∀ (env : FileEnv) (rng : List Char) (ledger : List Nat),
        env.managerHas = false ∨ env.tokenParse = none →
        (getDownloadFile env rng ledger).2 = ledger) :=
  ⟨fun _ rng ledger _ h1 h2 => backupGet_ledger h1 h2 rng ledger,
   fun _ rng ledger h => backupGet_untouched rng ledger h,
   fun _ rng ledger _ h1 h2 => fileGet_ledger h1 h2 rng ledger,
   fun _ rng ledger h => fileGet_untouched rng ledger h⟩

/-- Witness for C3: a successful lookup consumes the token even though
the request itself is fine, and a failed lookup leaves the ledger
empty. -/
theorem token_consumed_in_guard_witness :
    (getDownloadBackup sampleBackupEnv [] []).2 = [7] ∧
    (getDownloadFile sampleFileEnv [] []).2 = [9] ∧
    (getDownloadBackup { sampleBackupEnv with managerHas := false } [] []).2 = [] := by
  obtain ⟨c1, c2, c3, c4⟩ := token_consumed_in_guard
  refine ⟨?_, ?_, ?_⟩
  · rw [c1 sampleBackupEnv [] [] ⟨"s1".toList, "b1".toList, 7⟩ rfl rfl]
    decide
  · rw [c3 sampleFileEnv [] [] ⟨"s1".toList, "f.txt".toList, 9⟩ rfl rfl]
    decide
  · rw [c2 { sampleBackupEnv with managerHas := false } [] [] (Or.inl rfl)]

/-- Claim C1: a GET replaying a token consumed by a prior GET receives
the uniform resource-not-found response even though the resource still
resolves, and that response is exactly the one an unknown-server lookup
produces — the two cases are indistinguishable. -/
theorem replayed_token_not_found :
    (∀ (env : BackupEnv) (rng rng2 : List Char) (ledger : List Nat)
        (tok : BackupPayload) (st : FileStat),
        env.tokenParse = some tok → env.managerHas = true →
        env.locate = .found st → ledger.contains tok.uniqueId = false →
        (getDownloadBackup env rng2 ((getDownloadBackup env rng ledger).2)).1 =
          notFoundResp) ∧
    (∀ (env : FileEnv) (rng rng2 : List Char) (ledger : List Nat)
        (tok : FilePayload) (st : FileStat),
        env.tokenParse = some tok → env.managerHas = true →
        env.fileResult = some st → ledger.contains tok.uniqueId = false →
        (getDownloadFile env rng2 ((getDownloadFile env rng ledger).2)).1 =
          notFoundResp) ∧
    (∀ (env : BackupEnv) (rng : List Char) (ledger : List Nat) (tok : BackupPayload),
        env.tokenParse = some tok → env.managerHas = false →
        (getDownloadBackup env rng ledger).1 = notFoundResp) := by
  refine ⟨?_, ?_, ?_⟩
  · intro env rng rng2 ledger tok st h1 h2 _ hc
    rw [backupGet_ledger h1 h2 rng ledger, if_neg (by simpa using hc)]
    rw [backupGet_replayed h1 h2 (by simp) rng2]
  · intro env rng rng2 ledger tok st h1 h2 _ hc
    rw [fileGet_ledger h1 h2 rng ledger, if_neg (by simpa using hc)]
    rw [fileGet_replayed h1 h2 (by simp) rng2]
  · intro env rng ledger tok h1 h2
    rw [backupGet_no_server h1 h2 rng ledger]

/-- Witness for C1: a second GET with the sample token replays against
intact resources and gets the uniform 404. -/
theorem replayed_token_not_found_witness :
    (getDownloadBackup sampleBackupEnv []
        ((getDownloadBackup sampleBackupEnv [] []).2)).1 = notFoundResp ∧
    (getDownloadFile sampleFileEnv []
        ((getDownloadFile sampleFileEnv [] []).2)).1 = notFoundResp ∧
    (getDownloadBackup { sampleBackupEnv with managerHas := false } [] []).1 =
      notFoundResp := by
  obtain ⟨c1, c2, c3⟩ := replayed_token_not_found
  exact ⟨c1 sampleBackupEnv [] [] [] ⟨"s1".toList, "b1".toList, 7⟩ sampleStat
          rfl rfl rfl (by decide),
        c2 sampleFileEnv [] [] [] ⟨"s1".toList, "f.txt".toList, 9⟩ sampleStat
          rfl rfl rfl (by decide),
        c3 { sampleBackupEnv with managerHas := false } [] []
          ⟨"s1".toList, "b1".toList, 7⟩ rfl rfl⟩

/-- Claim C2 counterexample: the backup GET performs no directory check.
With locate metadata marking a directory, everything else healthy, it
answers the success status, not the not-found response the claim
demands for "either kind". -/
theorem backup_get_serves_directory :
    dirBackupEnv.locate = .found dirStat ∧ dirStat.isDir = true ∧
    (getDownloadBackup dirBackupEnv [] []).1.status = Status.ok := by
  refine ⟨rfl, rfl, ?_⟩
  decide

/-- Claim C2 (amended): only the File-kind handlers reject a directory
target — a File GET (or HEAD) whose resolved metadata marks a directory
answers the uniform not-found status, never success or partial success;
the Backup GET has no directory check and serves a success status even
when the locate metadata marks a directory. -/
theorem directory_target_not_found :
    (∀ (env : FileEnv) (rng : List Char) (ledger : List Nat)
        (tok : FilePayload) (st : FileStat),
        env.tokenParse = some tok → env.fileResult = some st → st.isDir = true →
        (getDownloadFile env rng ledger).1.status = Status.notFound) ∧
    (∀ (env : FileEnv) (ledger : List Nat) (tok : FilePayload) (st : FileStat),
        env.tokenParse = some tok → env.fileResult = some st → st.isDir = true →
        (getDownloadFileHead env ledger).1.status = Status.notFound) ∧
    (∀ (env : BackupEnv) (ledger : List Nat) (tok : BackupPayload) (st : FileStat),
        env.tokenParse = some tok → env.managerHas = true → env.uuidOk = true →
        env.locate = .found st → env.openOk = true →
        ledger.contains tok.uniqueId = false →
        (getDownloadBackup env [] ledger).1.status = Status.ok) := by
  refine ⟨?_, ?_, ?_⟩
  · intro env rng ledger tok st h1 h2 hdir
    obtain ⟨tp, mh, fr, so, ct⟩ := env
    dsimp only at h1 h2
    subst h1 h2
    cases mh
    · simp [getDownloadFile, notFoundResp]
    · by_cases hm : tok.uniqueId ∈ ledger <;>
        simp [getDownloadFile, isUniqueRequest, hm, hdir, notFoundResp]
  · intro env ledger tok st h1 h2 hdir
    obtain ⟨tp, mh, fr, so, ct⟩ := env
    dsimp only at h1 h2
    subst h1 h2
    cases mh <;> simp [getDownloadFileHead, hdir, notFoundResp]
  · intro env ledger tok st h1 h2 h3 h4 h5 hc
    rw [backupGet_stream h1 h2 hc h3 h4 h5 []]
    rw [show (streamResponse st env.content env.seekOk [], tok.uniqueId :: ledger).1
        = streamResponse st env.content env.seekOk [] from rfl]
    rw [streamResponse_full (parseRangeHeader_nil st.size)]

/-- Witness for the amended C2: the directory fixtures on both kinds. -/
theorem directory_target_not_found_witness :
    (getDownloadFile dirFileEnv [] []).1.status = Status.notFound ∧
    (getDownloadFileHead dirFileEnv []).1.status = Status.notFound ∧
    (getDownloadBackup dirBackupEnv [] [9]).1.status = Status.ok := by
  obtain ⟨c1, c2, c3⟩ := directory_target_not_found
  exact ⟨c1 dirFileEnv [] [] ⟨"s1".toList, "p".toList, 5⟩ dirStat rfl rfl rfl,
        c2 dirFileEnv [] ⟨"s1".toList, "p".toList, 5⟩ dirStat rfl rfl rfl,
        c3 dirBackupEnv [9] ⟨"s1".toList, "b1".toList, 3⟩ dirStat rfl rfl rfl rfl
          rfl (by decide)⟩

/-- Claim C10: the HEAD handlers never touch the consumption ledger:
the state comes back unchanged, repeated HEADs answer identically, a
GET from the post-HEAD state behaves exactly as from the initial state,
and with a valid token the HEAD succeeds with the full header set. -/
theorem head_non_consuming :
    (∀ (env : BackupEnv) (ledger : List Nat),
        (getDownloadBackupHead env ledger).2 = ledger ∧
        getDownloadBackupHead env ((getDownloadBackupHead env ledger).2) =
          getDownloadBackupHead env ledger) ∧
    (∀ (env : FileEnv) (ledger : List Nat),
        (getDownloadFileHead env ledger).2 = ledger ∧
        getDownloadFileHead env ((getDownloadFileHead env ledger).2) =
          getDownloadFileHead env ledger) ∧
    (∀ (env : BackupEnv) (rng : List Char) (ledger : List Nat),
        getDownloadBackup env rng ((getDownloadBackupHead env ledger).2) =
          getDownloadBackup env rng ledger) ∧
    (∀ (env : FileEnv) (rng : List Char) (ledger : List Nat),
        getDownloadFile env rng ((getDownloadFileHead env ledger).2) =
          getDownloadFile env rng ledger) ∧
    (∀ (env : BackupEnv) (ledger : List Nat) (tok : BackupPayload) (st : FileStat),
        env.tokenParse = some tok → env.managerHas = true → env.uuidOk = true →
        env.locate = .found st → env.openOk = true →
        getDownloadBackupHead env ledger = (⟨.ok, headHeaders st, .empty⟩, ledger)) ∧
    (∀ (env : FileEnv) (ledger : List Nat) (tok : FilePayload) (st : FileStat),
        env.tokenParse = some tok → env.managerHas = true →
        env.fileResult = some st → st.isDir = false →
        getDownloadFileHead env ledger = (⟨.ok, headHeaders st, .empty⟩, ledger)) := by
  refine ⟨?_, ?_, ?_, ?_, ?_, ?_⟩
  · intro env ledger
    exact ⟨backupHead_ledger env ledger, by rw [backupHead_ledger env ledger]⟩
  · intro env ledger
    exact ⟨fileHead_ledger env ledger, by rw [fileHead_ledger env ledger]⟩
  · intro env rng ledger
    rw [backupHead_ledger env ledger]
  · intro env rng ledger
    rw [fileHead_ledger env ledger]
  · intro env ledger tok st h1 h2 h3 h4 h5
    obtain ⟨tp, mh, uo, loc, oo, so, ct⟩ := env
    dsimp only at h1 h2 h3 h4 h5
    subst h1 h2 h3 h4 h5
    simp [getDownloadBackupHead]
  · intro env ledger tok st h1 h2 h3 h4
    obtain ⟨tp, mh, fr, so, ct⟩ := env
    dsimp only at h1 h2 h3
    subst h1 h2 h3
    simp [getDownloadFileHead, h4]

/-- Witness for C10: two HEADs and a GET with the sample fixtures. -/
theorem head_non_consuming_witness :
    (getDownloadBackupHead sampleBackupEnv []).2 = [] ∧
    getDownloadBackupHead sampleBackupEnv [] =
      (⟨.ok, headHeaders sampleStat, .empty⟩, []) ∧
    getDownloadFileHead sampleFileEnv [] =
      (⟨.ok, headHeaders sampleStat, .empty⟩, []) ∧
    getDownloadBackup sampleBackupEnv []
        ((getDownloadBackupHead sampleBackupEnv [] ).2) =
      getDownloadBackup sampleBackupEnv [] [] := by
  obtain ⟨c1, c2, c3, c4, c5, c6⟩ := head_non_consuming
  exact ⟨(c1 sampleBackupEnv []).1,
        c5 sampleBackupEnv [] ⟨"s1".toList, "b1".toList, 7⟩ sampleStat rfl rfl rfl
          rfl rfl,
        c6 sampleFileEnv [] ⟨"s1".toList, "f.txt".toList, 9⟩ sampleStat rfl rfl
          rfl rfl,
        c3 sampleBackupEnv [] []⟩

/-! ## Bounds of a successfully parsed range -/

theorem mkRange_ok_inv {start stop S : Int} {rs : rangeSpec}
    (h : mkRange start stop S = .ok (some rs)) :
    rs.start = start ∧ rs.stop = stop ∧ rs.size = stop - start + 1 ∧
      0 ≤ start ∧ start < S ∧ start ≤ stop ∧ stop < S := by
  rw [mkRange] at h
  split at h
  · cases h
  · rename_i hcond
    simp only [Except.ok.injEq, Option.some.injEq] at h
    subst h
    push_neg at hcond
    exact ⟨rfl, rfl, rfl, by omega, by omega, by omega, by omega⟩

theorem parseRanges_ok_inv {r : List Char} {S : Int} {rs : rangeSpec}
    (h : parseRanges r S = .ok (some rs)) :
    ∃ start stop, mkRange start stop S = .ok (some rs) := by
  rw [parseRanges] at h
  by_cases h1 : (['-'].isPrefixOf r) = true
  · rw [if_pos (by simp [h1])] at h
    cases hp : parseGoInt (r.drop 1) with
    | none => rw [hp] at h; cases h
    | some n => rw [hp] at h; exact ⟨_, _, h⟩
  · rw [if_neg (by simpa using h1)] at h
    by_cases h2 : (['-'].isSuffixOf r) = true
    · rw [if_pos (by simp [h2])] at h
      cases hp : parseGoInt r.dropLast with
      | none => rw [hp] at h; cases h
      | some n => rw [hp] at h; exact ⟨_, _, h⟩
    · rw [if_neg (by simpa using h2)] at h
      by_cases h3 : (splitChar '-' r).length ≠ 2
      · rw [if_pos h3] at h; cases h
      · rw [if_neg h3] at h
        cases hp : parseGoInt ((splitChar '-' r).headD []) with
        | none => rw [hp] at h; cases h
        | some s =>
            rw [hp] at h
            cases hq : parseGoInt ((splitChar '-' r).getD 1 []) with
            | none => rw [hq] at h; cases h
            | some e => rw [hq] at h; exact ⟨_, _, h⟩

theorem parseRangeHeader_ok_inv {hd : List Char} {S : Int} {rs : rangeSpec}
    (h : parseRangeHeader hd S = .ok (some rs)) :
    0 ≤ rs.start ∧ rs.start ≤ rs.stop ∧ rs.stop < S ∧
      rs.size = rs.stop - rs.start + 1 := by
  rw [parseRangeHeader] at h
  by_cases h0 : hd = []
  · rw [if_pos h0] at h; cases h
  · rw [if_neg h0] at h
    by_cases h1 : (bytesPfx.isPrefixOf hd) = true
    · rw [if_neg (by simp [h1])] at h
      have h' : ∃ r, parseRanges r S = .ok (some rs) := ⟨_, h⟩
      obtain ⟨r, hr⟩ := h'
      obtain ⟨st1, st2, hm⟩ := parseRanges_ok_inv hr
      obtain ⟨e1, e2, e3, e4, e5, e6, e7⟩ := mkRange_ok_inv hm
      refine ⟨?_, ?_, ?_, ?_⟩ <;> omega
    · rw [if_pos (by simpa using h1)] at h
      cases h

theorem slice_length {content : List Nat} {S : Int} {rs : rangeSpec}
    (hL : (content.length : Int) = S)
    (h0 : 0 ≤ rs.start) (h1 : rs.start ≤ rs.stop) (h2 : rs.stop < S)
    (h3 : rs.size = rs.stop - rs.start + 1) :
    ((content.drop rs.start.toNat).take rs.size.toNat).length = rs.size.toNat := by
  rw [List.length_take, List.length_drop]
  omega

/-- Claim C8: a GET whose Range header parses against the resolved
resource's size responds with the partial-content status, the base
headers followed by `Content-Range: bytes <start>-<end>/<total>` and
`Content-Length: <size>`, and a body that is exactly the `size` bytes of
the content starting at offset `start` — `size` bytes exactly when the
handle holds as many bytes as the stat promised. -/
theorem range_get_partial :
    (∀ (env : BackupEnv) (rng : List Char) (ledger : List Nat)
        (tok : BackupPayload) (st : FileStat) (rs : rangeSpec),
        env.tokenParse = some tok → env.managerHas = true →
        ledger.contains tok.uniqueId = false → env.uuidOk = true →
        env.locate = .found st → env.openOk = true → env.seekOk = true →
        (env.content.length : Int) = st.size →
        parseRangeHeader rng st.size = .ok (some rs) →
        (getDownloadBackup env rng ledger).1 =
          ⟨.partialContent,
           baseHeaders st ++
             [(hContentRange, contentRangeVal rs.start rs.stop st.size),
              (hContentLength, intToChars rs.size)],
           .bytes ((env.content.drop rs.start.toNat).take rs.size.toNat)⟩ ∧
        ((env.content.drop rs.start.toNat).take rs.size.toNat).length =
          rs.size.toNat) ∧
    (∀ (env : FileEnv) (rng : List Char) (ledger : List Nat)
        (tok : FilePayload) (st : FileStat) (rs : rangeSpec),
        env.tokenParse = some tok → env.managerHas = true →
        ledger.contains tok.uniqueId = false → env.fileResult = some st →
        st.isDir = false → env.seekOk = true →
        (env.content.length : Int) = st.size →
        parseRangeHeader rng st.size = .ok (some rs) →
        (getDownloadFile env rng ledger).1 =
          ⟨.partialContent,
           baseHeaders st ++
             [(hContentRange, contentRangeVal rs.start rs.stop st.size),
              (hContentLength, intToChars rs.size)],
           .bytes ((env.content.drop rs.start.toNat).take rs.size.toNat)⟩ ∧
        ((env.content.drop rs.start.toNat).take rs.size.toNat).length =
          rs.size.toNat) := by
  constructor
  · intro env rng ledger tok st rs h1 h2 hc h3 h4 h5 hseek hL hp
    obtain ⟨b0, b1, b2, b3⟩ := parseRangeHeader_ok_inv hp
    refine ⟨?_, slice_length hL b0 b1 b2 b3⟩
    rw [backupGet_stream h1 h2 hc h3 h4 h5 rng]
    rw [show (streamResponse st env.content env.seekOk rng,
        tok.uniqueId :: ledger).1 = streamResponse st env.content env.seekOk rng
      from rfl]
    rw [hseek, streamResponse_range hp]
  · intro env rng ledger tok st rs h1 h2 hc h3 h4 hseek hL hp
    obtain ⟨b0, b1, b2, b3⟩ := parseRangeHeader_ok_inv hp
    refine ⟨?_, slice_length hL b0 b1 b2 b3⟩
    rw [fileGet_stream h1 h2 hc h3 h4 rng]
    rw [show (streamResponse st env.content env.seekOk rng,
        tok.uniqueId :: ledger).1 = streamResponse st env.content env.seekOk rng
      from rfl]
    rw [hseek, streamResponse_range hp]

/-- Witness for C8: `bytes=1-2` against the 4-byte sample resources
streams exactly bytes 1 and 2. -/
theorem range_get_partial_witness :
    (getDownloadBackup sampleBackupEnv "bytes=1-2".toList []).1 =
      ⟨.partialContent,
       baseHeaders sampleStat ++
         [(hContentRange, contentRangeVal 1 2 4), (hContentLength, intToChars 2)],
       .bytes [20, 30]⟩ ∧
    (getDownloadFile sampleFileEnv "bytes=1-2".toList []).1 =
      ⟨.partialContent,
       baseHeaders sampleStat ++
         [(hContentRange, contentRangeVal 1 2 4), (hContentLength, intToChars 2)],
       .bytes [20, 30]⟩ := by
  obtain ⟨c1, c2⟩ := range_get_partial
  constructor
  · have h := (c1 sampleBackupEnv ("bytes=1-2".toList) [] ⟨"s1".toList, "b1".toList, 7⟩
      sampleStat ⟨1, 2, 2⟩ rfl rfl (by decide) rfl rfl rfl rfl (by decide)
      (by decide)).1
    rw [h]
    decide
  · have h := (c2 sampleFileEnv ("bytes=1-2".toList) [] ⟨"s1".toList, "f.txt".toList, 9⟩
      sampleStat ⟨1, 2, 2⟩ rfl rfl (by decide) rfl rfl rfl (by decide)
      (by decide)).1
    rw [h]
    decide

/-- Claim C9: a GET whose Range header fails to parse answers the
range-not-satisfiable status with an empty body and the single advisory
header `Content-Range: bytes */<total>`. -/
theorem unsatisfiable_range_416 :
    (∀ (env : BackupEnv) (rng : List Char) (ledger : List Nat)
        (tok : BackupPayload) (st : FileStat) (e : RangeErr),
        env.tokenParse = some tok → env.managerHas = true →
        ledger.contains tok.uniqueId = false → env.uuidOk = true →
        env.locate = .found st → env.openOk = true →
        parseRangeHeader rng st.size = .error e →
        (getDownloadBackup env rng ledger).1 =
          ⟨.rangeNotSatisfiable, [(hContentRange, bytesStarVal st.size)],
           .empty⟩) ∧
    (∀ (env : FileEnv) (rng : List Char) (ledger : List Nat)
        (tok : FilePayload) (st : FileStat) (e : RangeErr),
        env.tokenParse = some tok → env.managerHas = true →
        ledger.contains tok.uniqueId = false → env.fileResult = some st →
        st.isDir = false →
        parseRangeHeader rng st.size = .error e →
        (getDownloadFile env rng ledger).1 =
          ⟨.rangeNotSatisfiable, [(hContentRange, bytesStarVal st.size)],
           .empty⟩) := by
  constructor
  · intro env rng ledger tok st e h1 h2 hc h3 h4 h5 hp
    rw [backupGet_stream h1 h2 hc h3 h4 h5 rng]
    rw [show (streamResponse st env.content env.seekOk rng,
        tok.uniqueId :: ledger).1 = streamResponse st env.content env.seekOk rng
      from rfl]
    rw [streamResponse_err hp]
  · intro env rng ledger tok st e h1 h2 hc h3 h4 hp
    rw [fileGet_stream h1 h2 hc h3 h4 rng]
    rw [show (streamResponse st env.content env.seekOk rng,
        tok.uniqueId :: ledger).1 = streamResponse st env.content env.seekOk rng
      from rfl]
    rw [streamResponse_err hp]

/-- Witness for C9: a start beyond the 4-byte sample resource. -/
theorem unsatisfiable_range_416_witness :
    (getDownloadBackup sampleBackupEnv "bytes=7-9".toList []).1 =
      ⟨.rangeNotSatisfiable, [(hContentRange, bytesStarVal 4)], .empty⟩ ∧
    (getDownloadFile sampleFileEnv "bytes=oops".toList []).1 =
      ⟨.rangeNotSatisfiable, [(hContentRange, bytesStarVal 4)], .empty⟩ := by
  obtain ⟨c1, c2⟩ := unsatisfiable_range_416
  constructor
  · have h := c1 sampleBackupEnv ("bytes=7-9".toList) [] ⟨"s1".toList, "b1".toList, 7⟩
      sampleStat .outOfBounds rfl rfl (by decide) rfl rfl rfl (by decide)
    rw [h]
    decide
  · have h := c2 sampleFileEnv ("bytes=oops".toList) [] ⟨"s1".toList, "f.txt".toList, 9⟩
      sampleStat .invalidFormat rfl rfl (by decide) rfl rfl (by decide)
    rw [h]
    decide

end Wings
